import Mathlib

/-!
Shallow embedding of `src/s29371_2025.py`, a small interactive DNA-sequence
utility: random sequence generation, name insertion, FASTA writing,
per-base percentage statistics, and input validation.

Strings are modelled as `List Char`; percentages as exact rationals `ℚ`
(the Python code uses floats, but every quantity here is an exact small
rational, so exact equality subsumes any floating-point tolerance claim).
Randomness (`random.choices`, `random.randint`) is modelled by passing the
drawn values explicitly, constrained exactly as the Python library
guarantees (`randint(0, n)` lands in `[0, n]` inclusive; `choices(pop)`
draws indices into `pop`).
-/

namespace S29371

/-- The DNA alphabet `'ACGT'` used throughout the script. -/
def alphabet : List Char := ['A', 'C', 'G', 'T']

/-- `generate_dna_sequence(length)`:
`''.join(random.choices('ACGT', k=length))`.
The `k` independent draws of `random.choices` are modelled by `draws`,
each an index into the 4-character population `'ACGT'`. -/
def generate_dna_sequence (length : Nat) (draws : Nat → Fin 4) : List Char :=
  (List.range length).map (fun i => alphabet.get (draws i))

/-- `insert_name(seq, name)`:
`pos = random.randint(0, len(seq)); return seq[:pos] + name + seq[pos:]`.
The draw `pos` of `randint(0, len(seq))` is passed explicitly. -/
def insert_name (pos : Nat) (seq name : List Char) : List Char :=
  seq.take pos ++ name ++ seq.drop pos

/-- Return value of `calculate_stats`: the `percentages` dict (one entry
per base of `'ACGT'`) together with `cg_percent`. -/
structure Stats where
  pA : ℚ
  pC : ℚ
  pG : ℚ
  pT : ℚ
  cg_percent : ℚ
  deriving DecidableEq, Repr

/-- `dna_only = ''.join([base for base in seq if base in 'ACGT'])`. -/
def dna_only (seq : List Char) : List Char :=
  seq.filter (fun base => base ∈ alphabet)

/-- `calculate_stats(seq)`: filter to `'ACGT'` characters, then
`percentages[b] = 100*counts[b]/total if total else 0` for each base,
and `cg_percent = 100*(counts['C']+counts['G'])/total if total else 0`. -/
def calculate_stats (seq : List Char) : Stats :=
  let dna := dna_only seq
  let total := dna.length
  let pct : Char → ℚ := fun base =>
    if total ≠ 0 then (100 * dna.count base : ℚ) / total else 0
  let cg := dna.count 'C' + dna.count 'G'
  { pA := pct 'A'
    pC := pct 'C'
    pG := pct 'G'
    pT := pct 'T'
    cg_percent := if total ≠ 0 then (100 * cg : ℚ) / total else 0 }

/-- `save_fasta(file_name, seq_id, description, seq_with_name)`: the text
content written to the file, i.e.
`f">{seq_id} {description}\n"` followed by `seq_with_name + '\n'`. -/
def save_fasta (seq_id description seq_with_name : List Char) : List Char :=
  '>' :: seq_id ++ ' ' :: description ++ '\n' :: seq_with_name ++ '\n' :: []

/-- `open(file_name, 'w')` overwrite semantics: the resulting file content
is the newly written text, independent of any previous content `old`. -/
def write_mode_w (_old new : List Char) : List Char := new

/-- The first line of a text file: characters up to the first newline. -/
def first_line (l : List Char) : List Char :=
  l.takeWhile (fun c => c ≠ '\n')

/-- The second line of a text file: characters after the first newline
and up to the next one. -/
def second_line (l : List Char) : List Char :=
  ((l.dropWhile (fun c => c ≠ '\n')).drop 1).takeWhile (fun c => c ≠ '\n')

/-- `generate_random_id(length=8)`:
`''.join(random.choices('abcdefghijklmnopqrstuvwxyz0123456789', k=length))`,
with the draws of `random.choices` passed explicitly as indices into the
36-character population. -/
def id_population : List Char :=
  "abcdefghijklmnopqrstuvwxyz0123456789".toList

/-- See `id_population`. -/
def generate_random_id (length : Nat) (draws : Nat → Fin 36) : List Char :=
  (List.range length).map (fun i => id_population.get (draws i))

/-- The characters Python `str.strip()` (no argument) removes: exactly
those with `str.isspace()` true, per CPython's whitespace table —
`\t`–`\r` (0x09–0x0D), 0x1C–0x1F, space, 0x85 (NEL), 0xA0 (no-break
space), 0x1680, the Unicode space separators 0x2000–0x200A, the
line/paragraph separators 0x2028/0x2029, 0x202F, 0x205F and 0x3000. -/
def is_py_space (c : Char) : Bool :=
  c ∈ ['\t', '\n', '\x0b', '\x0c', '\r',
       '\x1c', '\x1d', '\x1e', '\x1f', ' ', '\x85', '\xa0',
       '\u1680', '\u2000', '\u2001', '\u2002', '\u2003', '\u2004',
       '\u2005', '\u2006', '\u2007', '\u2008', '\u2009', '\u200a',
       '\u2028', '\u2029', '\u202f', '\u205f', '\u3000']

/-- Python `seq_id.strip()`: drop leading and trailing whitespace. -/
def py_strip (s : List Char) : List Char :=
  ((s.dropWhile is_py_space).reverse.dropWhile is_py_space).reverse

/-- The `seq_id` selection in `main`:
`if not seq_id.strip(): seq_id = generate_random_id()`. -/
def choose_seq_id (input : List Char) (draws : Nat → Fin 36) : List Char :=
  if py_strip input = [] then generate_random_id 8 draws else input

/-- `get_valid_length()`: loop reading console inputs. Each console entry
is modelled by the result of `int(...)` on it: `none` when `int` raises
`ValueError`, `some n` when it parses to `n`. Entries with `n < 1` and
parse failures are rejected (re-prompt); the first entry parsing to an
integer `≥ 1` is returned. `none` overall means the input stream was
exhausted without a valid entry (the Python loop would still be waiting). -/
def get_valid_length : List (Option Int) → Option Int
  | [] => none
  | none :: rest => get_valid_length rest
  | some n :: rest => if n < 1 then get_valid_length rest else some n

/-! ### Helper lemmas -/

/-- On a list whose characters all lie in the DNA alphabet, the four
per-base counts partition the length. -/
lemma count_ACGT_eq_length (l : List Char) (h : ∀ c ∈ l, c ∈ alphabet) :
    l.count 'A' + l.count 'C' + l.count 'G' + l.count 'T' = l.length := by
  induction l with
  | nil => simp
  | cons c l ih =>
    have hc : c ∈ alphabet := h c (List.mem_cons_self c l)
    have hl : ∀ x ∈ l, x ∈ alphabet := fun x hx => h x (List.mem_cons_of_mem c hx)
    have ih' := ih hl
    simp only [alphabet, List.mem_cons, List.not_mem_nil, or_false] at hc
    rcases hc with rfl | rfl | rfl | rfl <;> simp [List.count_cons] <;> omega

/-- Every character of `dna_only seq` lies in the alphabet. -/
lemma mem_dna_only (seq : List Char) : ∀ c ∈ dna_only seq, c ∈ alphabet := by
  intro c hc
  have := List.of_mem_filter hc
  simpa using this

/-- A newline-free prefix before a `'\n'` is exactly the first line. -/
lemma first_line_of_append (h rest : List Char) (hh : '\n' ∉ h) :
    first_line (h ++ '\n' :: rest) = h := by
  induction h with
  | nil => simp [first_line]
  | cons c t ih =>
    have hc : c ≠ '\n' := fun e => hh (e ▸ List.mem_cons_self c t)
    have ht : '\n' ∉ t := fun m => hh (List.mem_cons_of_mem c m)
    simp only [List.cons_append, first_line, List.takeWhile_cons, hc,
      decide_eq_true_eq, ne_eq, not_false_eq_true, if_true]
    simpa [first_line] using ih ht

/-! ### Claims -/

/-- C1: whenever the alphabet-only subset of `s` is non-empty, the four
per-base percentages returned by `calculate_stats` sum to exactly 100
(exact rational arithmetic, hence within any floating-point tolerance). -/
theorem calculate_stats_sum_100 (seq : List Char) (h : dna_only seq ≠ []) :
    (calculate_stats seq).pA + (calculate_stats seq).pC +
      (calculate_stats seq).pG + (calculate_stats seq).pT = 100 := by
  have htot : (dna_only seq).length ≠ 0 := by
    simpa [List.length_eq_zero] using h
  have hcount := count_ACGT_eq_length (dna_only seq) (mem_dna_only seq)
  simp only [calculate_stats, htot, ne_eq, not_false_eq_true, if_true]
  have htotQ : ((dna_only seq).length : ℚ) ≠ 0 := by
    exact_mod_cast htot
  field_simp
  have : ((dna_only seq).count 'A' : ℚ) + (dna_only seq).count 'C' +
      (dna_only seq).count 'G' + (dna_only seq).count 'T' =
      ((dna_only seq).length : ℚ) := by exact_mod_cast hcount
  linarith

/-- C1 witness: the hypothesis and the conclusion hold at the concrete
input `"AxT"`. -/
theorem calculate_stats_sum_100_witness :
    dna_only ['A', 'x', 'T'] ≠ [] ∧
      (calculate_stats ['A', 'x', 'T']).pA + (calculate_stats ['A', 'x', 'T']).pC +
        (calculate_stats ['A', 'x', 'T']).pG + (calculate_stats ['A', 'x', 'T']).pT = 100 :=
  ⟨by decide, calculate_stats_sum_100 ['A', 'x', 'T'] (by decide)⟩

/-- C2: for any insertion position `pos ≤ len(seq)` (the exact range of
`random.randint(0, len(seq))`), `insert_name` returns a string of length
`len(seq) + len(name)` equal to `seq[0:pos] + name + seq[pos:]`; removing
the `len(name)`-length substring at offset `pos` reconstructs `seq`, and
an empty name leaves `seq` unchanged. -/
theorem insert_name_spec (seq name : List Char) (pos : Nat) (hpos : pos ≤ seq.length) :
    (insert_name pos seq name).length = seq.length + name.length ∧
    insert_name pos seq name = seq.take pos ++ name ++ seq.drop pos ∧
    (insert_name pos seq name).take pos ++
      (insert_name pos seq name).drop (pos + name.length) = seq ∧
    insert_name pos seq [] = seq := by
  have hlen : (seq.take pos).length = pos := by
    simp [List.length_take, Nat.min_eq_left hpos]
  refine ⟨?_, rfl, ?_, by simp [insert_name]⟩
  · simp only [insert_name, List.length_append, List.length_take, List.length_drop]
    omega
  · have htake : (insert_name pos seq name).take pos = seq.take pos := by
      simp only [insert_name, List.take_append_eq_append_take, hlen]
      simp [List.take_take]
      omega
    have hdrop : (insert_name pos seq name).drop (pos + name.length) = seq.drop pos := by
      simp only [insert_name, List.drop_append_eq_append_drop, hlen,
        List.length_append]
      simp
    rw [htake, hdrop, List.take_append_drop]

/-- C2 witness: the hypothesis and conclusion hold at `seq = "ACG"`,
`name = "xy"`, `pos = 1`. -/
theorem insert_name_spec_witness :
    (1 ≤ (['A', 'C', 'G'] : List Char).length) ∧
      ((insert_name 1 ['A', 'C', 'G'] ['x', 'y']).length =
          (['A', 'C', 'G'] : List Char).length + (['x', 'y'] : List Char).length ∧
        insert_name 1 ['A', 'C', 'G'] ['x', 'y'] =
          (['A', 'C', 'G'] : List Char).take 1 ++ ['x', 'y'] ++
            (['A', 'C', 'G'] : List Char).drop 1 ∧
        (insert_name 1 ['A', 'C', 'G'] ['x', 'y']).take 1 ++
          (insert_name 1 ['A', 'C', 'G'] ['x', 'y']).drop (1 + (['x', 'y'] : List Char).length) =
            ['A', 'C', 'G'] ∧
        insert_name 1 ['A', 'C', 'G'] [] = ['A', 'C', 'G']) :=
  ⟨by decide, insert_name_spec ['A', 'C', 'G'] ['x', 'y'] 1 (by decide)⟩

/-- C3: on identifier `"test1"`, description `"demo"`, payload
`"ACGTname123"`, the file content has first line `">test1 demo"` and
second line exactly `"ACGTname123"`; in general the content is the header
line followed by the full payload line (a two-line record), and `'w'`
mode discards any previous file content. -/
theorem save_fasta_record :
    first_line (save_fasta "test1".toList "demo".toList "ACGTname123".toList) =
        ">test1 demo".toList ∧
    second_line (save_fasta "test1".toList "demo".toList "ACGTname123".toList) =
        "ACGTname123".toList ∧
    (∀ seq_id description seq_with_name : List Char,
      save_fasta seq_id description seq_with_name =
        ('>' :: seq_id ++ ' ' :: description) ++ '\n' :: (seq_with_name ++ ['\n'])) ∧
    (∀ old seq_id description seq_with_name : List Char,
      write_mode_w old (save_fasta seq_id description seq_with_name) =
        save_fasta seq_id description seq_with_name) :=
  ⟨by decide, by decide, fun _ _ _ => by simp [save_fasta], fun _ _ _ _ => rfl⟩

/-- C4 counterexample: at identifier `"test1"` and description `"demo"`
the first header line is `">test1 demo"`, which is not of the claimed
form `<marker><space><identifier><space><description>` (the marker `'>'`
is immediately followed by the identifier, not by a space). -/
theorem save_fasta_header_space_counterexample :
    first_line (save_fasta "test1".toList "demo".toList "ACGTname123".toList) =
        ">test1 demo".toList ∧
    first_line (save_fasta "test1".toList "demo".toList "ACGTname123".toList) ≠
        '>' :: ' ' :: ("test1".toList ++ ' ' :: "demo".toList) := by
  constructor
  · decide
  · decide

/-- C4 (amended): for every newline-free identifier and description, the
first line of the file written by `save_fasta` has the format
`<marker><identifier><space><description>`: the marker character is
immediately followed by the identifier, with a single space only between
identifier and description. -/
theorem save_fasta_header_format (seq_id description : List Char)
    (hid : '\n' ∉ seq_id) (hdesc : '\n' ∉ description)
    (seq_with_name : List Char) :
    first_line (save_fasta seq_id description seq_with_name) =
      '>' :: seq_id ++ ' ' :: description := by
  have hh : '\n' ∉ '>' :: seq_id ++ ' ' :: description := by
    intro hmem
    simp only [List.mem_cons, List.mem_append] at hmem
    rcases hmem with (h | h) | h | h
    · exact (by decide : ('\n' : Char) ≠ '>') h
    · exact hid h
    · exact (by decide : ('\n' : Char) ≠ ' ') h
    · exact hdesc h
  have : save_fasta seq_id description seq_with_name =
      ('>' :: seq_id ++ ' ' :: description) ++ '\n' :: (seq_with_name ++ ['\n']) := by
    simp [save_fasta]
  rw [this, first_line_of_append _ _ hh]

/-- C4 witness: the amended header format holds at the concrete record
`("test1", "demo", "ACGTname123")`. -/
theorem save_fasta_header_format_witness :
    ('\n' ∉ "test1".toList) ∧ ('\n' ∉ "demo".toList) ∧
      first_line (save_fasta "test1".toList "demo".toList "ACGTname123".toList) =
        '>' :: "test1".toList ++ ' ' :: "demo".toList :=
  ⟨by decide, by decide,
    save_fasta_header_format "test1".toList "demo".toList (by decide) (by decide)
      "ACGTname123".toList⟩

/-- C5: `calculate_stats` filters to the alphabet-only subset and returns
`100 * count(base) / total` per base (`0` when `total = 0`) together with
`cg_percent = 100 * (count C + count G) / total` (`0` when `total = 0`);
on `"AACCGGTT"` it returns 25/25/25/25 and combined CG = 50. -/
theorem calculate_stats_formula :
    (∀ seq : List Char,
      calculate_stats seq =
        { pA := if (dna_only seq).length ≠ 0 then
              (100 * (dna_only seq).count 'A' : ℚ) / (dna_only seq).length else 0
          pC := if (dna_only seq).length ≠ 0 then
              (100 * (dna_only seq).count 'C' : ℚ) / (dna_only seq).length else 0
          pG := if (dna_only seq).length ≠ 0 then
              (100 * (dna_only seq).count 'G' : ℚ) / (dna_only seq).length else 0
          pT := if (dna_only seq).length ≠ 0 then
              (100 * (dna_only seq).count 'T' : ℚ) / (dna_only seq).length else 0
          cg_percent := if (dna_only seq).length ≠ 0 then
              (100 * ((dna_only seq).count 'C' + (dna_only seq).count 'G') : ℚ) /
                (dna_only seq).length else 0 }) ∧
    calculate_stats ['A', 'A', 'C', 'C', 'G', 'G', 'T', 'T'] =
      { pA := 25, pC := 25, pG := 25, pT := 25, cg_percent := 50 } := by
  constructor
  · intro seq
    simp [calculate_stats, Nat.cast_add]
  · have hd : dna_only ['A', 'A', 'C', 'C', 'G', 'G', 'T', 'T'] =
        ['A', 'A', 'C', 'C', 'G', 'G', 'T', 'T'] := by decide
    have hA : List.count 'A' ['A', 'A', 'C', 'C', 'G', 'G', 'T', 'T'] = 2 := by decide
    have hC : List.count 'C' ['A', 'A', 'C', 'C', 'G', 'G', 'T', 'T'] = 2 := by decide
    have hG : List.count 'G' ['A', 'A', 'C', 'C', 'G', 'G', 'T', 'T'] = 2 := by decide
    have hT : List.count 'T' ['A', 'A', 'C', 'C', 'G', 'G', 'T', 'T'] = 2 := by decide
    simp only [calculate_stats, hd, hA, hC, hG, hT, List.length_cons, List.length_nil]
    norm_num

/-- C6: on any input whose alphabet-only subset is empty, all four base
percentages and the combined CG percentage are 0; the division branch is
guarded off, so no division is performed. -/
theorem calculate_stats_empty_alphabet (seq : List Char)
    (h : dna_only seq = []) :
    calculate_stats seq = { pA := 0, pC := 0, pG := 0, pT := 0, cg_percent := 0 } := by
  simp [calculate_stats, h]

/-- C6 witness: the all-zero result at the concrete all-foreign input
`"xyz"`. -/
theorem calculate_stats_empty_alphabet_witness :
    dna_only "xyz".toList = [] ∧
      calculate_stats "xyz".toList =
        { pA := 0, pC := 0, pG := 0, pT := 0, cg_percent := 0 } :=
  ⟨by decide, calculate_stats_empty_alphabet "xyz".toList (by decide)⟩

/-- C7: for every length `L ≥ 1` and every sequence of draws, the
generated string has exactly `L` characters, each in `{A, C, G, T}`. -/
theorem generate_dna_sequence_spec (L : Nat) (_hL : 1 ≤ L) (draws : Nat → Fin 4) :
    (generate_dna_sequence L draws).length = L ∧
    ∀ c ∈ generate_dna_sequence L draws, c ∈ alphabet := by
  refine ⟨by simp [generate_dna_sequence], ?_⟩
  intro c hc
  simp only [generate_dna_sequence, List.mem_map] at hc
  obtain ⟨i, _, rfl⟩ := hc
  exact List.get_mem alphabet _ _

/-- C7 witness: length and alphabet membership at `L = 3` with all draws
equal to `0`. -/
theorem generate_dna_sequence_spec_witness :
    1 ≤ 3 ∧
      ((generate_dna_sequence 3 (fun _ => 0)).length = 3 ∧
        ∀ c ∈ generate_dna_sequence 3 (fun _ => 0), c ∈ alphabet) :=
  ⟨by decide, generate_dna_sequence_spec 3 (by decide) (fun _ => 0)⟩

/-- An input the validation loop rejects: `int(...)` raised `ValueError`
(`none`), or the parsed value is `< 1`. -/
def rejected : Option Int → Bool
  | none => true
  | some n => n < 1

/-- C8: the validation loop never returns an invalid value (any returned
value is `≥ 1`), and on any stream consisting of rejected entries
followed by a first valid entry `v ≥ 1`, it re-prompts through all the
rejected entries and returns exactly `v` there, regardless of what
follows. -/
theorem get_valid_length_spec :
    (∀ (inputs : List (Option Int)) (v : Int),
      get_valid_length inputs = some v → 1 ≤ v) ∧
    (∀ (bad : List (Option Int)) (v : Int) (rest : List (Option Int)),
      (∀ x ∈ bad, rejected x = true) → 1 ≤ v →
      get_valid_length (bad ++ some v :: rest) = some v) := by
  constructor
  · intro inputs
    induction inputs with
    | nil => intro v h; cases h
    | cons x rest ih =>
      intro v h
      match x with
      | none => exact ih v h
      | some n =>
        simp only [get_valid_length] at h
        by_cases hn : n < 1
        · rw [if_pos hn] at h
          exact ih v h
        · rw [if_neg hn] at h
          cases h
          omega
  · intro bad v rest hbad hv
    induction bad with
    | nil =>
      simp only [List.nil_append, get_valid_length]
      rw [if_neg (by omega)]
    | cons x bad ih =>
      have hx : rejected x = true := hbad x (List.mem_cons_self x bad)
      have hbad' : ∀ y ∈ bad, rejected y = true :=
        fun y hy => hbad y (List.mem_cons_of_mem x hy)
      match x with
      | none => simpa [get_valid_length] using ih hbad'
      | some n =>
        have hn : n < 1 := by simpa [rejected] using hx
        simp only [List.cons_append, get_valid_length]
        rw [if_pos hn]
        exact ih hbad'

/-- C8 witness: on the concrete stream
`[none, some 0, some 5, none]` (a parse failure, then `0`, then `5`) the
loop skips the two rejected entries and returns `5`; and `5 ≥ 1`. -/
theorem get_valid_length_spec_witness :
    (∀ x ∈ ([none, some 0] : List (Option Int)), rejected x = true) ∧
      (1 : Int) ≤ 5 ∧
      get_valid_length [none, some 0, some 5, none] = some 5 :=
  ⟨by decide, by decide,
    get_valid_length_spec.2 [none, some 0] 5 [none] (by decide) (by decide)⟩

/-- C9: if the supplied identifier is empty or whitespace-only (Python
`seq_id.strip()` is empty), `main` substitutes the 8-draw
`generate_random_id`, whose result has exactly 8 characters, each a
lowercase letter or a digit; otherwise the supplied identifier is used
unchanged. -/
theorem choose_seq_id_spec (input : List Char) (draws : Nat → Fin 36) :
    (py_strip input = [] →
      choose_seq_id input draws = generate_random_id 8 draws ∧
      (choose_seq_id input draws).length = 8 ∧
      ∀ c ∈ choose_seq_id input draws, c.isLower = true ∨ c.isDigit = true) ∧
    (py_strip input ≠ [] → choose_seq_id input draws = input) := by
  constructor
  · intro hstrip
    have heq : choose_seq_id input draws = generate_random_id 8 draws := by
      simp [choose_seq_id, hstrip]
    refine ⟨heq, ?_, ?_⟩
    · rw [heq]; simp [generate_random_id]
    · intro c hc
      rw [heq] at hc
      simp only [generate_random_id, List.mem_map] at hc
      obtain ⟨i, _, rfl⟩ := hc
      have hpop : ∀ c ∈ id_population, c.isLower = true ∨ c.isDigit = true := by
        decide
      exact hpop _ (List.get_mem id_population _ _)
  · intro hstrip
    simp [choose_seq_id, hstrip]

/-- C9 witness: the whitespace-only identifier `" \xa0"` (a space and a
no-break space, both stripped by Python `str.strip()`) is replaced by the
generated 8-character lowercase-alphanumeric id (shown for the all-`'a'`
draw), and a non-blank identifier `"x"` is kept unchanged. -/
theorem choose_seq_id_spec_witness :
    (choose_seq_id [' ', '\xa0'] (fun _ => 0) = generate_random_id 8 (fun _ => 0) ∧
      (choose_seq_id [' ', '\xa0'] (fun _ => 0)).length = 8 ∧
      ∀ c ∈ choose_seq_id [' ', '\xa0'] (fun _ => 0),
        c.isLower = true ∨ c.isDigit = true) ∧
    choose_seq_id ['x'] (fun _ => 0) = ['x'] :=
  ⟨(choose_seq_id_spec [' ', '\xa0'] (fun _ => 0)).1 (by decide),
    (choose_seq_id_spec ['x'] (fun _ => 0)).2 (by decide)⟩

/-- C10: the membership test `base in 'ACGT'` of `calculate_stats` is
case-sensitive: a leading lowercase `'a'`/`'c'`/`'g'`/`'t'` is dropped
from the filtered subset (so from every count and from the denominator),
while an uppercase alphabet character is kept and counted like any
generated base; consequently an inserted name containing `'A'` changes
the computed statistics (`insert_name` at position 1 of `"C"` with name
`"A"`). -/
theorem calculate_stats_case_sensitive :
    (∀ c ∈ (['a', 'c', 'g', 't'] : List Char), ∀ seq : List Char,
      dna_only (c :: seq) = dna_only seq) ∧
    (∀ c ∈ alphabet, ∀ seq : List Char,
      dna_only (c :: seq) = c :: dna_only seq) ∧
    calculate_stats (insert_name 1 ['C'] ['A']) ≠ calculate_stats ['C'] := by
  refine ⟨?_, ?_, ?_⟩
  · intro c hc seq
    simp only [List.mem_cons, List.not_mem_nil, or_false] at hc
    rcases hc with rfl | rfl | rfl | rfl <;> simp [dna_only, alphabet]
  · intro c hc seq
    simp only [alphabet, List.mem_cons, List.not_mem_nil, or_false] at hc
    rcases hc with rfl | rfl | rfl | rfl <;> simp [dna_only, alphabet]
  · intro h
    have hpA := congrArg Stats.pA h
    have h1 : dna_only (insert_name 1 ['C'] ['A']) = ['C', 'A'] := by decide
    have h2 : dna_only ['C'] = ['C'] := by decide
    have hc1 : List.count 'A' ['C', 'A'] = 1 := by decide
    have hc2 : List.count 'A' ['C'] = 0 := by decide
    simp only [calculate_stats, h1, h2, hc1, hc2, List.length_cons,
      List.length_nil] at hpA
    norm_num at hpA

/-- C10 witness: the lowercase-skipping and uppercase-keeping branches at
concrete characters, plus the concrete statistics difference. -/
theorem calculate_stats_case_sensitive_witness :
    dna_only ['a', 'A'] = dna_only ['A'] ∧
      dna_only ['A', 'a'] = 'A' :: dna_only ['a'] ∧
      calculate_stats (insert_name 1 ['C'] ['A']) ≠ calculate_stats ['C'] :=
  ⟨calculate_stats_case_sensitive.1 'a' (by decide) ['A'],
    calculate_stats_case_sensitive.2.1 'A' (by decide) ['a'],
    calculate_stats_case_sensitive.2.2⟩

end S29371
